import Mathlib

/-!
Shallow embedding of the time-metric derivation pipeline of the
`reporting-data` dashboards (`streamlit_app.py`, `pages/Agent_Occupancy.py`,
`pages/Productivity_Exceptions.py`).

Python strings are modelled as `List Char`.  A cell of an uploaded CSV column
is modelled by `Cell`: a string, the null/NaN sentinel, or some non-string
scalar.  Machine arithmetic is exact here (Python ints are unbounded;
pandas ratio arithmetic is modelled over `ℚ`, which is faithful for the
integral second counts the pipeline produces).
-/

/-- A value held in a dataframe cell: the NaN/null sentinel, a string, or a
non-string scalar (whose numeric content the duration parser never uses). -/
inductive Cell : Type
  | na : Cell
  | str (s : List Char) : Cell
  | nonStr : Cell
deriving DecidableEq, Repr

/-- Numeric value of a decimal digit character. -/
def charVal (c : Char) : Nat := c.toNat - 48

/-- Strip leading and trailing whitespace, as Python's `int(str)` does before
reading the numeral. -/
def pyStrip (l : List Char) : List Char :=
  ((l.dropWhile Char.isWhitespace).reverse.dropWhile Char.isWhitespace).reverse

/-- Continue reading a run of decimal digits after the first digit, with the
accumulated value `acc`.  A single underscore is allowed between two digits
(Python numeral grammar); anything else fails. -/
def pyDigitsAux (acc : Nat) : List Char → Option Nat
  | [] => some acc
  | [c] => if c.isDigit then some (acc * 10 + charVal c) else none
  | c :: d :: ds =>
    if c.isDigit then pyDigitsAux (acc * 10 + charVal c) (d :: ds)
    else if c = '_' then
      if d.isDigit then pyDigitsAux (acc * 10 + charVal d) ds else none
    else none

/-- Read a non-empty run of decimal digits (with Python's underscore rule) as
a natural number; `none` on anything else. -/
def pyDigits? : List Char → Option Nat
  | [] => none
  | c :: cs => if c.isDigit then pyDigitsAux (charVal c) cs else none

/-- Read an optional sign and then a decimal numeral from an already-stripped
string, as Python `int` does; `none` models the `ValueError`. -/
def pyIntCore : List Char → Option Int
  | [] => none
  | c :: cs =>
    if c = '+' then (pyDigits? cs).map Int.ofNat
    else if c = '-' then (pyDigits? cs).map (fun n => -(n : Int))
    else (pyDigits? (c :: cs)).map Int.ofNat

/-- Model of Python `int(s)` on a string: strip surrounding whitespace, read an
optional sign, then a decimal numeral; `none` models the `ValueError`. -/
def pyInt? (l : List Char) : Option Int := pyIntCore (pyStrip l)

/-- Accumulator for `splitColon`: `acc` holds the current segment reversed. -/
def splitColonAux : List Char → List Char → List (List Char)
  | [], acc => [acc.reverse]
  | c :: cs, acc =>
    if c = ':' then acc.reverse :: splitColonAux cs [] else splitColonAux cs (c :: acc)

/-- Model of Python `s.split(':')`: the list of (possibly empty) segments
between colons. -/
def splitColon (l : List Char) : List (List Char) := splitColonAux l []

/-- Model of `h, m, s = map(int, segments)`: succeeds exactly when there are exactly
three segments, each parsed by `int`. -/
def mapInt3 : List (List Char) → Option (Int × Int × Int)
  | [a, b, c] =>
    match pyInt? a, pyInt? b, pyInt? c with
    | some h, some m, some s => some (h, m, s)
    | _, _, _ => none
  | _ => none

/-- Body of the `try` block of `time_to_seconds`:
`h, m, s = map(int, time_str.split(':'))` succeeds exactly when the string
splits into three segments, each parsed by `int`. -/
def parse3 (l : List Char) : Option (Int × Int × Int) :=
  mapInt3 (splitColon l)

/-- The `time_to_seconds` of `pages/Agent_Occupancy.py`: NaN, the empty string and
non-strings return 0 up front; otherwise `h*3600 + m*60 + s` when the string
splits into three `int`-parsable components, and 0 when the `try` fails. -/
def time_to_seconds : Cell → Int
  | .na => 0
  | .nonStr => 0
  | .str l =>
    if l = [] then 0
    else
      match parse3 l with
      | some (h, m, s) => h * 3600 + m * 60 + s
      | none => 0

/-- The `time_to_seconds` of `streamlit_app.py`: the bare `try/except` variant
(`.split` on a non-string raises `AttributeError`, caught to 0). -/
def time_to_seconds_app : Cell → Int
  | .na => 0
  | .nonStr => 0
  | .str l =>
    match parse3 l with
    | some (h, m, s) => h * 3600 + m * 60 + s
    | none => 0

/-- Decimal digit characters of `n`, least significant first; structural in a
fuel argument (any `fuel > n` is enough) so that it reduces in the kernel. -/
def natDigitsRevFuel : Nat → Nat → List Char
  | 0, _ => []
  | fuel + 1, n =>
    if n < 10 then [Nat.digitChar n]
    else Nat.digitChar (n % 10) :: natDigitsRevFuel fuel (n / 10)

/-- Decimal digit characters of `n`, least significant first. -/
def natDigitsRev (n : Nat) : List Char := natDigitsRevFuel (n + 1) n

/-- Decimal rendering of a natural number, as Python's `str`/`format` writes
it (no sign, no leading zeros except for `0` itself). -/
def natToStr (n : Nat) : List Char := (natDigitsRev n).reverse

/-- Model of Python `f"{n:02d}"` for `n ≥ 0`: the decimal numeral of `n`
left-padded with `'0'` to at least `w` characters. -/
def padTo (w : Nat) (l : List Char) : List Char :=
  List.replicate (w - l.length) '0' ++ l

/-- Model of Python `f"{n:02d}"`: a negative value spends one width unit on
the `'-'` sign; zero-padding goes between the sign and the digits. -/
def fmt02 (n : Int) : List Char :=
  if n < 0 then '-' :: padTo 1 (natToStr n.natAbs) else padTo 2 (natToStr n.natAbs)

/-- Argument of `format_time`: an integer second count, the NaN sentinel, or a
non-numeric value.  (The source also accepts floats, which `int(seconds)`
truncates; the claims under audit concern integer inputs, which is what is
embedded here.) -/
inductive Scalar : Type
  | int (n : Int) : Scalar
  | nan : Scalar
  | nonNum : Scalar
deriving DecidableEq, Repr

/-- The `format_time` of `pages/Agent_Occupancy.py`: `"00:00"` on non-numeric or
NaN input, else `f"{seconds//3600:02d}:{(seconds%3600)//60:02d}"`.  Python
`//` is floor division (`Int.fdiv`) and `%` returns a result with the sign of
the (positive) divisor (`Int.emod`). -/
def format_time : Scalar → List Char
  | .nan => "00:00".toList
  | .nonNum => "00:00".toList
  | .int n => fmt02 (Int.fdiv n 3600) ++ ':' :: fmt02 (Int.fdiv (Int.emod n 3600) 60)

/-- Reader for the claimed output format of `format_time`: exactly two
colon-separated components, each at least two characters of plain decimal
digits, read as (hours, minutes).  Written from the spec's words to be
compared with `format_time`'s actual output. -/
def digitsNat? (l : List Char) : Option Nat :=
  if l ≠ [] ∧ l.all Char.isDigit then
    some (l.foldl (fun a c => a * 10 + charVal c) 0)
  else none

/-- Read two colon-separated components, each at least two characters wide,
as (hours, minutes). -/
def hmRead2 : List (List Char) → Option (Nat × Nat)
  | [a, b] =>
    if 2 ≤ a.length ∧ 2 ≤ b.length then
      match digitsNat? a, digitsNat? b with
      | some h, some m => some (h, m)
      | _, _ => none
    else none
  | _ => none

/-- Read an `"HH:MM"` string back into (hours, minutes); `none` unless the
shape promised by the spec (two zero-padded digit components) is present. -/
def hmRead (l : List Char) : Option (Nat × Nat) :=
  hmRead2 (splitColon l)

/-- One row of the occupancy report, restricted to the fields the derivation
pipeline reads.  Name cells model `df['AGENT FIRST NAME']` etc., where `none`
is NaN (filled to the empty string by `fillna('')`). -/
structure InputRecord : Type where
  first_name : Option (List Char)
  last_name : Option (List Char)
  login : Cell
  not_ready : Cell
  wait : Cell
  on_call : Cell
  acw : Cell
deriving DecidableEq, Repr

/-- Model of `pandas.Series.clip(0, 100)` on one value. -/
def clip (x : ℚ) : ℚ := if x < 0 then 0 else if 100 < x then 100 else x

/-- Model of `df['Total Active Time'] = df['ON CALL TIME_SECONDS'] + df['ON ACW TIME_SECONDS']`. -/
def active_seconds (r : InputRecord) : Int :=
  time_to_seconds r.on_call + time_to_seconds r.acw

/-- Model of `df['LOGIN TIME_SECONDS'].replace(0, 1)`: the stored login seconds after
the divide-by-zero guard. -/
def login_guarded (r : InputRecord) : Int :=
  if time_to_seconds r.login = 0 then 1 else time_to_seconds r.login

/-- The raw utilization denominator `login_time - not_ready_time` (with
`login_time` the already-guarded column). -/
def util_denom (r : InputRecord) : Int :=
  login_guarded r - time_to_seconds r.not_ready

/-- One derived row of `process_data`. -/
structure DerivedRecord : Type where
  full_name : List Char
  login_seconds : Int
  not_ready_seconds : Int
  wait_seconds : Int
  on_call_seconds : Int
  acw_seconds : Int
  total_active : Int
  occupancy : ℚ
  utilization : ℚ
deriving DecidableEq, Repr

/-- The per-row body of `process_data` of `pages/Agent_Occupancy.py`:
parse the duration columns, build `Full Name`, `Total Active Time`,
replace a zero `LOGIN TIME_SECONDS` by 1, then
`Occupancy % = (active / login * 100).clip(0, 100)` and
`Utilization % = (active / (login - not_ready).replace(0, 1) * 100).clip(0, 100)`. -/
def process_record (r : InputRecord) : DerivedRecord :=
  let active := active_seconds r
  let login := login_guarded r
  let d0 := util_denom r
  let d := if d0 = 0 then 1 else d0
  { full_name := (r.first_name.getD []) ++ ' ' :: (r.last_name.getD [])
    login_seconds := login
    not_ready_seconds := time_to_seconds r.not_ready
    wait_seconds := time_to_seconds r.wait
    on_call_seconds := time_to_seconds r.on_call
    acw_seconds := time_to_seconds r.acw
    total_active := active
    occupancy := clip ((active : ℚ) / (login : ℚ) * 100)
    utilization := clip ((active : ℚ) / (d : ℚ) * 100) }

/-- The `process_data` derivation over the whole dataframe, row by row. -/
def process_data (batch : List InputRecord) : List DerivedRecord :=
  batch.map process_record

/-- Model of `df['LOGIN TIME_SECONDS'].sum()` as read by `show_metrics` from the
processed dataframe. -/
def total_login_time (l : List DerivedRecord) : Int :=
  (l.map (·.login_seconds)).sum

/-- Model of `df['LOGIN TIME_SECONDS'].mean()` as read by `show_metrics`. -/
def avg_login_time (l : List DerivedRecord) : ℚ :=
  (total_login_time l : ℚ) / (l.length : ℚ)

/-- The `required_columns` list of `pages/Agent_Occupancy.py`. -/
def required_columns : List String :=
  ["AGENT", "AGENT FIRST NAME", "AGENT LAST NAME", "DATE",
   "LOGIN TIME", "NOT READY TIME", "WAIT TIME", "ON CALL TIME", "ON ACW TIME"]

/-- Model of `[col for col in required_columns if col not in df.columns]`. -/
def missing_columns (cols : List String) : List String :=
  required_columns.filter (fun c => ¬ cols.contains c)

/-- The upload handler of `pages/Agent_Occupancy.py` after `pd.read_csv`:
if any required column is missing, `st.error` names the missing columns and
nothing is processed; otherwise the batch is derived.  The error payload is
the list of column names interpolated into the
`f"Missing columns: {', '.join(missing_columns)}"` message. -/
def handle_upload (cols : List String) (batch : List InputRecord) :
    Except (List String) (List DerivedRecord) :=
  if missing_columns cols = [] then .ok (process_data batch)
  else .error (missing_columns cols)

/-- The `required_columns` list of `streamlit_app.py`. -/
def required_columns_app : List String := ["AGENT NAME", "NOT READY TIME", "DATE"]

/-- The upload handler of `streamlit_app.py`: processing happens only when
`all(col in df.columns for col in required_columns)`; otherwise `st.error`
names the whole required list (which contains every missing column).  The
`Unit` success value stands for the rendered visualizations. -/
def handle_upload_app (cols : List String) : Except (List String) Unit :=
  if required_columns_app.all (fun c => cols.contains c) then .ok ()
  else .error required_columns_app

/-- Stable descending insertion for the `nlargest` model: `x` goes in front of
the first element whose key is not larger, so earlier rows precede equal-keyed
later rows. -/
def insertDescBy (key : α → ℚ) (x : α) : List α → List α
  | [] => [x]
  | y :: ys => if key y ≤ key x then x :: y :: ys else y :: insertDescBy key x ys

/-- Stable descending sort by `key` (insertion sort, folded from the right so
each element is inserted before the equal-keyed elements that follow it). -/
def sortDescBy (key : α → ℚ) (l : List α) : List α :=
  l.foldr (insertDescBy key) []

/-- Model of `DataFrame.nlargest(n, column)` with the default `keep='first'`:
the first `n` rows in descending order of the column, ties resolved in favour
of earlier rows (pandas keeps and orders first occurrences). -/
def nlargest (n : Nat) (key : α → ℚ) (l : List α) : List α :=
  (sortDescBy key l).take n

/-- Agent A of the §8 scenario: `LOGIN TIME=02:00:00`, `ON CALL TIME=01:00:00`,
`ON ACW TIME=00:10:00`, `NOT READY TIME=00:20:00`. -/
def recA : InputRecord :=
  { first_name := some "A".toList, last_name := some "Agent".toList
    login := .str "02:00:00".toList
    not_ready := .str "00:20:00".toList
    wait := .str "00:00:00".toList
    on_call := .str "01:00:00".toList
    acw := .str "00:10:00".toList }

/-- Agent B of the §8 scenario: `LOGIN TIME=00:00:00`, all other durations
`00:00:00`. -/
def recB : InputRecord :=
  { first_name := some "B".toList, last_name := some "Agent".toList
    login := .str "00:00:00".toList
    not_ready := .str "00:00:00".toList
    wait := .str "00:00:00".toList
    on_call := .str "00:00:00".toList
    acw := .str "00:00:00".toList }

/-- A record whose utilization denominator is strictly negative:
one hour logged in (guard leaves 3600 alone), two hours not ready. -/
def recC : InputRecord :=
  { first_name := some "C".toList, last_name := some "Agent".toList
    login := .str "01:00:00".toList
    not_ready := .str "02:00:00".toList
    wait := .str "00:00:00".toList
    on_call := .str "00:30:00".toList
    acw := .str "00:00:00".toList }

/-- The malformed-input class of §4.1: NaN, a non-string, the empty string, or
a string that does not split into exactly three `int`-parsable components. -/
def malformedCellB (c : Cell) : Bool :=
  match c with
  | .na => true
  | .nonStr => true
  | .str l => l.isEmpty || (parse3 l).isNone

/-- Holds when the cell, if it parses at all, parses into three non-negative
components (the inputs over which the non-negativity claim survives). -/
def componentsNonnegB (c : Cell) : Bool :=
  match c with
  | .str l =>
    match parse3 l with
    | some (h, m, s) => decide (0 ≤ h) && decide (0 ≤ m) && decide (0 ≤ s)
    | none => true
  | _ => true

/-- Modelled from the spec's words for the guard policy asserted by the
utilization claim: apply the occupancy zero-guard (denominator replaced by 1)
whenever `login_seconds - not_ready_seconds` is ≤ 0, not just when it is 0.
To be compared with the utilization `process_record` actually computes. -/
def utilization_spec_guarded (r : InputRecord) : ℚ :=
  clip ((active_seconds r : ℚ) /
    ((if util_denom r ≤ 0 then 1 else util_denom r : Int) : ℚ) * 100)

/-- An upload header that lacks exactly the `LOGIN TIME` required column. -/
def colsNoLogin : List String :=
  ["AGENT", "AGENT FIRST NAME", "AGENT LAST NAME", "DATE",
   "NOT READY TIME", "WAIT TIME", "ON CALL TIME", "ON ACW TIME"]

theorem clip_mem (x : ℚ) : 0 ≤ clip x ∧ clip x ≤ 100 := by
  unfold clip
  split_ifs <;> constructor <;> linarith

theorem clip_of_nonpos {x : ℚ} (h : x ≤ 0) : clip x = 0 := by
  unfold clip
  split_ifs <;> linarith

/-- C1: on the two-record scenario batch, agent A gets
`Total Active Time = 4200`, `Occupancy % = 4200/7200*100` and
`Utilization % = 4200/(7200-1200)*100 = 70`, and agent B (zero login time)
gets `Occupancy % = 0` with no division fault. -/
theorem claim_C1_scenario :
    (process_data [recA, recB]).map (fun d => (d.total_active, d.occupancy, d.utilization)) =
      [(4200, 4200 / 7200 * 100, 4200 / (7200 - 1200) * 100), (0, 0, 0)] ∧
    (4200 / 7200 * 100 : ℚ) = 175 / 3 ∧ (4200 / (7200 - 1200) * 100 : ℚ) = 70 := by
  have hA : active_seconds recA = 4200 := by decide
  have hLA : login_guarded recA = 7200 := by decide
  have hDA : util_denom recA = 6000 := by decide
  have hB : active_seconds recB = 0 := by decide
  have hLB : login_guarded recB = 1 := by decide
  have hDB : util_denom recB = 1 := by decide
  refine ⟨?_, by norm_num, by norm_num⟩
  simp [process_data, process_record, hA, hLA, hDA, hB, hLB, hDB]
  norm_num [clip]

/-- C2: every occupancy and utilization ratio produced by `process_data` lies
in [0, 100], for arbitrary input cell contents. -/
theorem claim_C2_ratio_bounds (batch : List InputRecord) (d : DerivedRecord)
    (hd : d ∈ process_data batch) :
    0 ≤ d.occupancy ∧ d.occupancy ≤ 100 ∧ 0 ≤ d.utilization ∧ d.utilization ≤ 100 := by
  obtain ⟨r, -, rfl⟩ := List.mem_map.1 hd
  exact ⟨(clip_mem _).1, (clip_mem _).2, (clip_mem _).1, (clip_mem _).2⟩

/-- Witness for C2 at the concrete scenario record A. -/
theorem claim_C2_ratio_bounds_witness :
    0 ≤ (process_record recA).occupancy ∧ (process_record recA).occupancy ≤ 100 ∧
    0 ≤ (process_record recA).utilization ∧ (process_record recA).utilization ≤ 100 :=
  claim_C2_ratio_bounds [recA] (process_record recA) (by simp [process_data])

/-- C3: the duration parser is total — on NaN, non-strings, the empty string,
and every string that does not split into exactly three `int`-parsable
colon-separated components, both source variants return exactly 0. -/
theorem claim_C3_parser_total (c : Cell) (h : malformedCellB c = true) :
    time_to_seconds c = 0 ∧ time_to_seconds_app c = 0 := by
  cases c with
  | na => exact ⟨rfl, rfl⟩
  | nonStr => exact ⟨rfl, rfl⟩
  | str l =>
    simp only [malformedCellB, Bool.or_eq_true, List.isEmpty_iff,
      Option.isNone_iff_eq_none] at h
    rcases h with h | h
    · subst h
      exact ⟨by decide, by decide⟩
    · exact ⟨by simp [time_to_seconds, h], by simp [time_to_seconds_app, h]⟩

/-- Witness for C3 at the concrete malformed string `"bad"`. -/
theorem claim_C3_parser_total_witness :
    malformedCellB (.str "bad".toList) = true ∧
    time_to_seconds (.str "bad".toList) = 0 ∧
    time_to_seconds_app (.str "bad".toList) = 0 :=
  ⟨by decide, claim_C3_parser_total _ (by decide)⟩

/-- C4 counterexample: the parser is not non-negative on every input string —
`"-1:00:00"` splits into three `int`-parsable components and parses to
`-3600 < 0`. -/
theorem claim_C4_counterexample :
    time_to_seconds (.str "-1:00:00".toList) = -3600 ∧
    time_to_seconds (.str "-1:00:00".toList) < 0 := by
  exact ⟨by decide, by decide⟩

/-- C4 amended: the parser is non-negative on every input whose three parsed
components are all non-negative (and on every unparseable or missing input,
where it returns 0); a string with a negative component parses negative. -/
theorem claim_C4_amended (c : Cell) (h : componentsNonnegB c = true) :
    0 ≤ time_to_seconds c ∧ 0 ≤ time_to_seconds_app c := by
  cases c with
  | na => exact ⟨le_refl 0, le_refl 0⟩
  | nonStr => exact ⟨le_refl 0, le_refl 0⟩
  | str l =>
    cases hp : parse3 l with
    | none =>
      exact ⟨by simp [time_to_seconds, hp], by simp [time_to_seconds_app, hp]⟩
    | some t =>
      obtain ⟨a, b, c⟩ := t
      have hl : l ≠ [] := by
        intro e
        subst e
        rw [show parse3 [] = none from by decide] at hp
        exact Option.noConfusion hp
      simp only [componentsNonnegB, hp, Bool.and_eq_true, decide_eq_true_eq] at h
      obtain ⟨⟨ha, hb⟩, hc⟩ := h
      constructor
      · simp only [time_to_seconds, hp, if_neg hl]
        omega
      · simp only [time_to_seconds_app, hp]
        omega

/-- Witness for C4's amended theorem at the concrete string `"1:2:3"`. -/
theorem claim_C4_amended_witness :
    componentsNonnegB (.str "1:2:3".toList) = true ∧
    0 ≤ time_to_seconds (.str "1:2:3".toList) ∧
    0 ≤ time_to_seconds_app (.str "1:2:3".toList) :=
  ⟨by decide, claim_C4_amended _ (by decide)⟩

/-- C6: when required columns are missing, both upload handlers reject the
whole batch with an error naming the missing columns (the occupancy page
names exactly the missing ones; the not-ready page names the required list,
which contains every missing one), and no derivation output is produced;
when nothing is missing, the occupancy handler derives the full batch. -/
theorem claim_C6_missing_columns (cols : List String) (batch : List InputRecord) :
    (missing_columns cols ≠ [] →
      handle_upload cols batch = .error (missing_columns cols) ∧
      ∀ out, handle_upload cols batch ≠ .ok out) ∧
    (missing_columns cols = [] →
      handle_upload cols batch = .ok (process_data batch)) ∧
    (∀ c, c ∈ missing_columns cols ↔ c ∈ required_columns ∧ cols.contains c = false) ∧
    ((∃ c ∈ required_columns_app, cols.contains c = false) →
      handle_upload_app cols = .error required_columns_app ∧
      ∀ u, handle_upload_app cols ≠ .ok u) := by
  refine ⟨?_, ?_, ?_, ?_⟩
  · intro h
    unfold handle_upload
    rw [if_neg h]
    exact ⟨rfl, fun out hk => Except.noConfusion hk⟩
  · intro h
    unfold handle_upload
    rw [if_pos h]
  · intro c
    simp [missing_columns, List.mem_filter]
  · rintro ⟨c, hc, hf⟩
    have hcond : ¬ (required_columns_app.all (fun c => cols.contains c) = true) := by
      intro hall
      rw [List.all_eq_true] at hall
      have := hall c hc
      rw [hf] at this
      exact Bool.noConfusion this
    unfold handle_upload_app
    rw [if_neg hcond]
    exact ⟨rfl, fun u hk => Except.noConfusion hk⟩

/-- Witness for C6: a header lacking exactly `LOGIN TIME` is rejected with an
error naming `LOGIN TIME`, and nothing is processed. -/
theorem claim_C6_missing_columns_witness :
    missing_columns colsNoLogin = ["LOGIN TIME"] ∧
    (handle_upload colsNoLogin [] = .error (missing_columns colsNoLogin) ∧
      ∀ out, handle_upload colsNoLogin [] ≠ .ok out) :=
  ⟨by decide, (claim_C6_missing_columns colsNoLogin []).1 (by decide)⟩

/-- C7 counterexample: the utilization guard is not applied to negative
denominators — on a record with login 3600 s and not-ready 7200 s
(denominator −3600 ≤ 0), the code delivers 0, while the claimed
"same zero-guard for every denominator ≤ 0" policy would deliver 100. -/
theorem claim_C7_counterexample :
    (process_record recC).utilization = 0 ∧
    utilization_spec_guarded recC = 100 ∧
    (process_record recC).utilization ≠ utilization_spec_guarded recC := by
  have hC : active_seconds recC = 1800 := by decide
  have hDC : util_denom recC = -3600 := by decide
  have h1 : (process_record recC).utilization = 0 := by
    simp [process_record, hC, hDC]
    norm_num [clip]
  have h2 : utilization_spec_guarded recC = 100 := by
    simp [utilization_spec_guarded, hC, hDC]
    norm_num [clip]
  exact ⟨h1, h2, by rw [h1, h2]; norm_num⟩

/-- C7 amended: the utilization denominator is `login − not_ready` on the
guarded login column; the replace-by-1 guard fires only when that denominator
is exactly 0, a strictly negative denominator instead yields a negative ratio
that the clip maps to 0 (given non-negative active time), and the delivered
value always lies in [0, 100] — never NaN/Infinity/undefined. -/
theorem claim_C7_amended (r : InputRecord) :
    (0 ≤ (process_record r).utilization ∧ (process_record r).utilization ≤ 100) ∧
    (util_denom r = 0 →
      (process_record r).utilization = clip ((active_seconds r : ℚ) * 100)) ∧
    (util_denom r < 0 → 0 ≤ active_seconds r →
      (process_record r).utilization = 0) := by
  refine ⟨⟨(clip_mem _).1, (clip_mem _).2⟩, ?_, ?_⟩
  · intro h0
    simp [process_record, h0]
  · intro hneg hact
    have hne : util_denom r ≠ 0 := by omega
    have hcast : ((util_denom r : Int) : ℚ) < 0 := by exact_mod_cast hneg
    have hacast : (0 : ℚ) ≤ (active_seconds r : ℚ) := by exact_mod_cast hact
    have hdiv : (active_seconds r : ℚ) / ((util_denom r : Int) : ℚ) ≤ 0 :=
      div_nonpos_iff.mpr (Or.inl ⟨hacast, le_of_lt hcast⟩)
    have hmul : (active_seconds r : ℚ) / ((util_denom r : Int) : ℚ) * 100 ≤ 0 := by
      nlinarith
    show (process_record r).utilization = 0
    simp only [process_record, if_neg hne]
    exact clip_of_nonpos hmul

/-- Witness for C7's amended theorem at the negative-denominator record. -/
theorem claim_C7_amended_witness :
    util_denom recC < 0 ∧ 0 ≤ active_seconds recC ∧
    (process_record recC).utilization = 0 :=
  ⟨by decide, by decide, (claim_C7_amended recC).2.2 (by decide) (by decide)⟩

/-- C10: `process_data` overwrites the stored login seconds with the zero
guard — every record whose parsed `LOGIN TIME` is 0 is reported with
`LOGIN TIME_SECONDS` 1, records with nonzero parsed login time keep it, and
the `show_metrics` total over login time therefore counts 1 instead of 0 for
each zero-login record (concretely: the singleton batch of zero-login agent B
totals 1 second of login time). -/
theorem claim_C10_login_overwrite (batch : List InputRecord) :
    (process_data batch).map (·.login_seconds) =
      batch.map (fun r =>
        if time_to_seconds r.login = 0 then 1 else time_to_seconds r.login) ∧
    total_login_time (process_data batch) =
      (batch.map (fun r =>
        if time_to_seconds r.login = 0 then 1 else time_to_seconds r.login)).sum ∧
    total_login_time (process_data [recB]) = 1 := by
  have hmap : (process_data batch).map (·.login_seconds) =
      batch.map (fun r =>
        if time_to_seconds r.login = 0 then 1 else time_to_seconds r.login) := by
    simp only [process_data, List.map_map]
    rfl
  refine ⟨hmap, ?_, by decide⟩
  unfold total_login_time
  rw [hmap]

theorem length_insertDescBy {α : Type} (key : α → ℚ) (x : α) (l : List α) :
    (insertDescBy key x l).length = l.length + 1 := by
  induction l with
  | nil => rfl
  | cons y ys ih =>
    unfold insertDescBy
    split_ifs
    · rfl
    · simp [ih]

theorem length_sortDescBy {α : Type} (key : α → ℚ) (l : List α) :
    (sortDescBy key l).length = l.length := by
  induction l with
  | nil => rfl
  | cons x xs ih =>
    show (insertDescBy key x (sortDescBy key xs)).length = xs.length + 1
    rw [length_insertDescBy, ih]

theorem mem_insertDescBy {α : Type} (key : α → ℚ) {x z : α} {l : List α} :
    z ∈ insertDescBy key x l ↔ z = x ∨ z ∈ l := by
  induction l with
  | nil => simp [insertDescBy]
  | cons y ys ih =>
    unfold insertDescBy
    split_ifs
    · simp [List.mem_cons]
    · simp only [List.mem_cons, ih]
      tauto

theorem pairwise_insertDescBy {α : Type} (key : α → ℚ) {x : α} {l : List α}
    (hl : List.Pairwise (fun a b => key b ≤ key a) l) :
    List.Pairwise (fun a b => key b ≤ key a) (insertDescBy key x l) := by
  induction l with
  | nil => simp [insertDescBy]
  | cons y ys ih =>
    rcases List.pairwise_cons.1 hl with ⟨hy, hys⟩
    unfold insertDescBy
    split_ifs with hle
    · refine List.pairwise_cons.2 ⟨?_, hl⟩
      intro z hz
      rcases List.mem_cons.1 hz with rfl | hz
      · exact hle
      · exact le_trans (hy z hz) hle
    · refine List.pairwise_cons.2 ⟨?_, ih hys⟩
      intro z hz
      rcases (mem_insertDescBy key).1 hz with rfl | hz
      · exact le_of_lt (lt_of_not_le hle)
      · exact hy z hz

theorem pairwise_sortDescBy {α : Type} (key : α → ℚ) (l : List α) :
    List.Pairwise (fun a b => key b ≤ key a) (sortDescBy key l) := by
  induction l with
  | nil => simp [sortDescBy]
  | cons x xs ih => exact pairwise_insertDescBy key ih

theorem filter_insertDescBy {α : Type} (key : α → ℚ) (v : ℚ) (x : α) (l : List α) :
    (insertDescBy key x l).filter (fun z => decide (key z = v)) =
      if key x = v then x :: l.filter (fun z => decide (key z = v))
      else l.filter (fun z => decide (key z = v)) := by
  induction l with
  | nil =>
    by_cases hx : key x = v <;> simp [insertDescBy, List.filter_cons, hx]
  | cons y ys ih =>
    simp only [insertDescBy]
    by_cases hyx : key y ≤ key x
    · rw [if_pos hyx]
      by_cases hx : key x = v <;> simp [List.filter_cons, hx]
    · rw [if_neg hyx]
      by_cases hx : key x = v
      · have hy : ¬ (key y = v) := by
          intro e
          exact hyx (le_of_eq (by rw [e, hx]))
        simp [List.filter_cons, hy, hx, ih]
      · simp [List.filter_cons, hx, ih]

theorem filter_sortDescBy {α : Type} (key : α → ℚ) (v : ℚ) (l : List α) :
    (sortDescBy key l).filter (fun z => decide (key z = v)) =
      l.filter (fun z => decide (key z = v)) := by
  induction l with
  | nil => rfl
  | cons x xs ih =>
    show ((insertDescBy key x (sortDescBy key xs)).filter _) = _
    rw [filter_insertDescBy]
    by_cases hx : key x = v
    · simp [List.filter_cons, hx, ih]
    · simp [List.filter_cons, hx, ih]

theorem digitChar_isDigit {d : Nat} (h : d < 10) : (Nat.digitChar d).isDigit = true := by
  interval_cases d <;> decide

theorem charVal_digitChar {d : Nat} (h : d < 10) : charVal (Nat.digitChar d) = d := by
  interval_cases d <;> decide

theorem ne_of_isDigit {c d : Char} (h : c.isDigit = true) (hd : d.isDigit = false) :
    c ≠ d := by
  intro e
  rw [e, hd] at h
  exact Bool.noConfusion h

theorem isDigit_not_ws {c : Char} (h : c.isDigit = true) : c.isWhitespace = false := by
  cases hw : c.isWhitespace
  · rfl
  · exfalso
    simp only [Char.isWhitespace, Bool.or_eq_true, decide_eq_true_eq] at hw
    rcases hw with ((e | e) | e) | e <;> (subst e; exact absurd h (by decide))

theorem natDigitsRevFuel_digits (fuel : Nat) :
    ∀ (n : Nat), ∀ c ∈ natDigitsRevFuel fuel n, c.isDigit = true := by
  induction fuel with
  | zero =>
    intro n c hc
    simp [natDigitsRevFuel] at hc
  | succ f ih =>
    intro n c hc
    simp only [natDigitsRevFuel] at hc
    by_cases h : n < 10
    · rw [if_pos h] at hc
      rcases List.mem_singleton.1 hc with rfl
      exact digitChar_isDigit h
    · rw [if_neg h] at hc
      rcases List.mem_cons.1 hc with rfl | hc
      · exact digitChar_isDigit (Nat.mod_lt _ (by omega))
      · exact ih _ c hc

theorem natToStr_digits (n : Nat) : ∀ c ∈ natToStr n, c.isDigit = true := by
  intro c hc
  exact natDigitsRevFuel_digits (n + 1) n c (List.mem_reverse.1 hc)

theorem natToStr_ne_nil (n : Nat) : natToStr n ≠ [] := by
  unfold natToStr natDigitsRev
  simp only [natDigitsRevFuel]
  by_cases h : n < 10
  · rw [if_pos h]
    simp
  · rw [if_neg h]
    simp

/-- Value of a digit string under the standard left fold. -/
def digitsVal (l : List Char) : Nat := l.foldl (fun a c => a * 10 + charVal c) 0

theorem digitsVal_natDigitsRevFuel (fuel : Nat) :
    ∀ (n : Nat), n < fuel →
      ((natDigitsRevFuel fuel n).reverse).foldl (fun a c => a * 10 + charVal c) 0 = n := by
  induction fuel with
  | zero => omega
  | succ f ih =>
    intro n hn
    simp only [natDigitsRevFuel]
    by_cases h : n < 10
    · rw [if_pos h]
      simp only [List.reverse_cons, List.reverse_nil, List.nil_append,
        List.foldl_cons, List.foldl_nil]
      rw [charVal_digitChar h]
      omega
    · rw [if_neg h]
      rw [List.reverse_cons, List.foldl_append]
      simp only [List.foldl_cons, List.foldl_nil]
      have hlt : n / 10 < f := by
        have h1 : n / 10 < n := Nat.div_lt_self (by omega) (by omega)
        omega
      rw [ih (n / 10) hlt, charVal_digitChar (Nat.mod_lt n (by omega))]
      omega

theorem digitsVal_natToStr (n : Nat) : digitsVal (natToStr n) = n :=
  digitsVal_natDigitsRevFuel (n + 1) n (by omega)

theorem pyDigitsAux_digits (l : List Char) (h : ∀ c ∈ l, c.isDigit = true) :
    ∀ acc : Nat, pyDigitsAux acc l = some (l.foldl (fun a c => a * 10 + charVal c) acc) := by
  induction l with
  | nil => intro acc; rfl
  | cons c cs ih =>
    intro acc
    have hc := h c (List.mem_cons_self c cs)
    cases cs with
    | nil =>
      simp only [pyDigitsAux]
      rw [if_pos hc, List.foldl_cons, List.foldl_nil]
    | cons d ds =>
      simp only [pyDigitsAux]
      rw [if_pos hc, List.foldl_cons]
      exact ih (fun e he => h e (List.mem_cons_of_mem c he)) _

theorem pyDigits_digits (l : List Char) (hne : l ≠ []) (h : ∀ c ∈ l, c.isDigit = true) :
    pyDigits? l = some (digitsVal l) := by
  cases l with
  | nil => exact absurd rfl hne
  | cons c cs =>
    have hc := h c (List.mem_cons_self c cs)
    simp only [pyDigits?]
    rw [if_pos hc, pyDigitsAux_digits cs (fun d hd => h d (List.mem_cons_of_mem c hd))]
    unfold digitsVal
    rw [List.foldl_cons]
    norm_num

theorem dropWhile_eq_self_of_none {p : Char → Bool} (l : List Char)
    (h : ∀ c ∈ l, p c = false) : l.dropWhile p = l := by
  cases l with
  | nil => rfl
  | cons c cs =>
    rw [List.dropWhile_cons, h c (List.mem_cons_self c cs)]
    simp

theorem pyStrip_of_no_ws (l : List Char) (h : ∀ c ∈ l, c.isWhitespace = false) :
    pyStrip l = l := by
  unfold pyStrip
  rw [dropWhile_eq_self_of_none l h]
  rw [dropWhile_eq_self_of_none l.reverse (fun c hc => h c (List.mem_reverse.1 hc))]
  exact List.reverse_reverse l

theorem pyInt_digits (l : List Char) (hne : l ≠ []) (h : ∀ c ∈ l, c.isDigit = true) :
    pyInt? l = some (Int.ofNat (digitsVal l)) := by
  unfold pyInt?
  rw [pyStrip_of_no_ws l (fun c hc => isDigit_not_ws (h c hc))]
  cases l with
  | nil => exact absurd rfl hne
  | cons c cs =>
    have hc := h c (List.mem_cons_self c cs)
    simp only [pyIntCore]
    rw [if_neg (ne_of_isDigit hc (by decide) : c ≠ '+'),
      if_neg (ne_of_isDigit hc (by decide) : c ≠ '-'),
      pyDigits_digits _ hne h]
    rfl

theorem pyInt_natToStr (n : Nat) : pyInt? (natToStr n) = some (Int.ofNat n) := by
  rw [pyInt_digits (natToStr n) (natToStr_ne_nil n) (natToStr_digits n),
    digitsVal_natToStr]

theorem splitColonAux_no_colon (a : List Char) (h : ∀ c ∈ a, c ≠ ':') :
    ∀ acc : List Char, splitColonAux a acc = [acc.reverse ++ a] := by
  induction a with
  | nil => intro acc; simp [splitColonAux]
  | cons c cs ih =>
    intro acc
    simp only [splitColonAux]
    rw [if_neg (h c (List.mem_cons_self c cs)),
      ih (fun d hd => h d (List.mem_cons_of_mem c hd))]
    simp

theorem splitColonAux_append (a : List Char) (h : ∀ c ∈ a, c ≠ ':') :
    ∀ (rest acc : List Char),
      splitColonAux (a ++ ':' :: rest) acc = (acc.reverse ++ a) :: splitColonAux rest [] := by
  induction a with
  | nil =>
    intro rest acc
    simp [splitColonAux]
  | cons c cs ih =>
    intro rest acc
    simp only [List.cons_append, List.append_eq, splitColonAux]
    rw [if_neg (h c (List.mem_cons_self c cs)),
      ih (fun d hd => h d (List.mem_cons_of_mem c hd))]
    simp

theorem splitColon_three (a b c : List Char) (ha : ∀ x ∈ a, x ≠ ':')
    (hb : ∀ x ∈ b, x ≠ ':') (hc : ∀ x ∈ c, x ≠ ':') :
    splitColon (a ++ ':' :: b ++ ':' :: c) = [a, b, c] := by
  unfold splitColon
  simp only [List.append_assoc, List.cons_append]
  rw [splitColonAux_append a ha, splitColonAux_append b hb, splitColonAux_no_colon c hc]
  simp

theorem splitColon_two (a b : List Char) (ha : ∀ x ∈ a, x ≠ ':')
    (hb : ∀ x ∈ b, x ≠ ':') :
    splitColon (a ++ ':' :: b) = [a, b] := by
  unfold splitColon
  rw [splitColonAux_append a ha, splitColonAux_no_colon b hb]
  simp

theorem natToStr_no_colon (n : Nat) : ∀ c ∈ natToStr n, c ≠ ':' :=
  fun c hc => ne_of_isDigit (natToStr_digits n c hc) (by decide)

theorem parse3_hms (h m s : Nat) :
    parse3 (natToStr h ++ ':' :: natToStr m ++ ':' :: natToStr s) =
      some ((h : Int), (m : Int), (s : Int)) := by
  unfold parse3
  rw [splitColon_three _ _ _ (natToStr_no_colon h) (natToStr_no_colon m)
    (natToStr_no_colon s)]
  simp only [mapInt3]
  rw [pyInt_natToStr h, pyInt_natToStr m, pyInt_natToStr s]
  rfl

/-- C5: every string that splits into three `int`-parsable colon-separated
components `h`, `m`, `s` parses to `h*3600 + m*60 + s` in both source
variants; in particular, every `HH:MM:SS` string assembled from three decimal
numerals parses back to its value, and `"1:2:3"` parses to 3723. -/
theorem claim_C5_wellformed_parse :
    (∀ (l : List Char) (h m s : Int), parse3 l = some (h, m, s) →
      time_to_seconds (.str l) = h * 3600 + m * 60 + s ∧
      time_to_seconds_app (.str l) = h * 3600 + m * 60 + s) ∧
    (∀ h m s : Nat,
      time_to_seconds (.str (natToStr h ++ ':' :: natToStr m ++ ':' :: natToStr s)) =
        (h : Int) * 3600 + (m : Int) * 60 + (s : Int) ∧
      time_to_seconds_app (.str (natToStr h ++ ':' :: natToStr m ++ ':' :: natToStr s)) =
        (h : Int) * 3600 + (m : Int) * 60 + (s : Int)) ∧
    time_to_seconds (.str "1:2:3".toList) = 3723 ∧
    time_to_seconds_app (.str "1:2:3".toList) = 3723 := by
  refine ⟨?_, ?_, by decide, by decide⟩
  · intro l h m s hp
    have hl : l ≠ [] := by
      intro e
      rw [e, show parse3 [] = none from by decide] at hp
      exact Option.noConfusion hp
    exact ⟨by simp only [time_to_seconds, hp, if_neg hl],
      by simp only [time_to_seconds_app, hp]⟩
  · intro h m s
    have hne : natToStr h ++ ':' :: natToStr m ++ ':' :: natToStr s ≠ [] := by
      intro e
      exact absurd (List.append_eq_nil.mp e).2 (by simp)
    constructor
    · simp only [time_to_seconds, parse3_hms, if_neg hne]
    · simp only [time_to_seconds_app, parse3_hms]

/-- Witness for C5 at the concrete string `"1:2:3"`. -/
theorem claim_C5_wellformed_parse_witness :
    parse3 "1:2:3".toList = some (1, 2, 3) ∧
    time_to_seconds (.str "1:2:3".toList) = 1 * 3600 + 2 * 60 + 3 ∧
    time_to_seconds_app (.str "1:2:3".toList) = 1 * 3600 + 2 * 60 + 3 :=
  ⟨by decide, claim_C5_wellformed_parse.1 "1:2:3".toList 1 2 3 (by decide)⟩

theorem padTo_digits (w k : Nat) : ∀ c ∈ padTo w (natToStr k), c.isDigit = true := by
  intro c hc
  unfold padTo at hc
  rcases List.mem_append.1 hc with hc | hc
  · rcases List.eq_of_mem_replicate hc with rfl
    decide
  · exact natToStr_digits k c hc

theorem padTo_ne_nil (w k : Nat) : padTo w (natToStr k) ≠ [] := by
  unfold padTo
  intro e
  exact natToStr_ne_nil k (List.append_eq_nil.mp e).2

theorem length_padTo (w : Nat) (l : List Char) : w ≤ (padTo w l).length := by
  unfold padTo
  rw [List.length_append, List.length_replicate]
  omega

theorem foldl_replicate_zero (j : Nat) (ds : List Char) :
    (List.replicate j '0' ++ ds).foldl (fun a c => a * 10 + charVal c) 0 =
      ds.foldl (fun a c => a * 10 + charVal c) 0 := by
  induction j with
  | zero => rfl
  | succ i ih =>
    rw [List.replicate_succ, List.cons_append, List.foldl_cons,
      show 0 * 10 + charVal '0' = 0 from by decide]
    exact ih

theorem digitsNat_padTo (w k : Nat) : digitsNat? (padTo w (natToStr k)) = some k := by
  unfold digitsNat?
  rw [if_pos ⟨padTo_ne_nil w k,
    List.all_eq_true.mpr (fun c hc => padTo_digits w k c hc)⟩]
  unfold padTo
  rw [foldl_replicate_zero]
  exact congrArg some (digitsVal_natToStr k)

theorem fmt02_cast (k : Nat) : fmt02 ((k : Nat) : Int) = padTo 2 (natToStr k) := by
  unfold fmt02
  rw [if_neg (by omega : ¬ ((k : Int) < 0)),
    show ((k : Int)).natAbs = k from rfl]

theorem fdiv_ofNat (m k : Nat) : Int.fdiv (Int.ofNat m) (Int.ofNat k) = Int.ofNat (m / k) := by
  cases m with
  | zero =>
    rw [Nat.zero_div]
    rfl
  | succ m => rfl

theorem hmRead_format_time (n : Nat) :
    hmRead (format_time (.int (n : Int))) = some (n / 3600, n % 3600 / 60) := by
  have h1 : Int.fdiv (n : Int) 3600 = ((n / 3600 : Nat) : Int) := fdiv_ofNat n 3600
  have h2 : Int.fdiv (Int.emod (n : Int) 3600) 60 = ((n % 3600 / 60 : Nat) : Int) := by
    rw [show Int.emod (n : Int) 3600 = Int.ofNat (n % 3600) from rfl]
    exact fdiv_ofNat (n % 3600) 60
  simp only [format_time]
  rw [h1, h2, fmt02_cast, fmt02_cast]
  unfold hmRead
  rw [splitColon_two _ _
    (fun x hx => ne_of_isDigit (padTo_digits 2 (n / 3600) x hx) (by decide))
    (fun x hx => ne_of_isDigit (padTo_digits 2 (n % 3600 / 60) x hx) (by decide))]
  simp only [hmRead2]
  rw [if_pos ⟨length_padTo 2 _, length_padTo 2 _⟩]
  rw [digitsNat_padTo, digitsNat_padTo]

/-- C9: `format_time` renders an integer second count as `"HH:MM"` — reading
its output back through the spec's format (exactly two colon-separated
components, each at least two digit characters) recovers truncated hours
`n / 3600` and minutes `n % 3600 / 60` for every natural second count `n`;
`format_time 3661 = "01:01"`, and NaN or non-numeric input yields `"00:00"`. -/
theorem claim_C9_format_duration :
    format_time (.int 3661) = "01:01".toList ∧
    format_time .nan = "00:00".toList ∧
    format_time .nonNum = "00:00".toList ∧
    ∀ n : Nat, hmRead (format_time (.int (n : Int))) = some (n / 3600, n % 3600 / 60) :=
  ⟨by decide, rfl, rfl, hmRead_format_time⟩

/-- C8: `nlargest n key` (pandas `nlargest(n, column)`, default `keep='first'`)
returns exactly `min n batch_size` records, in non-increasing order of the
chosen field, and for every tied value the kept records appear as a prefix of
the tied records in original batch order. -/
theorem claim_C8_nlargest {α : Type} (n : Nat) (key : α → ℚ) (l : List α) :
    (nlargest n key l).length = min n l.length ∧
    List.Pairwise (fun a b => key b ≤ key a) (nlargest n key l) ∧
    ∀ v : ℚ, ((nlargest n key l).filter (fun z => decide (key z = v))) <+:
      (l.filter (fun z => decide (key z = v))) := by
  refine ⟨?_, ?_, ?_⟩
  · unfold nlargest
    rw [List.length_take, length_sortDescBy]
  · exact List.Pairwise.sublist (List.take_sublist n _) (pairwise_sortDescBy key l)
  · intro v
    unfold nlargest
    rw [← filter_sortDescBy key v l]
    exact ⟨((sortDescBy key l).drop n).filter (fun z => decide (key z = v)),
      by rw [← List.filter_append, List.take_append_drop]⟩

